import Mathlib

/-!
Verification of the frontDesk-frontend client-side data layer.

This file gives a shallow embedding, in Lean, of the parts of the
repository that its specification talks about:

* `src/services/enhancedApi.ts` — the client-side request cache
  (TTL map, in-flight request deduplication, optimistic updates,
  cache invalidation and the periodic expiry sweep);
* `src/services/api.ts` — the HTTP client wrapper (retry with
  exponential backoff, transient-failure classification, request
  interceptor);
* `src/utils/errorHandler.ts` — `ErrorHandler.shouldRetry`;
* `src/utils/validation.ts` — `validateField`.

JavaScript `Map` objects are embedded as association lists with
unique keys (insertion order preserved, as in JS); `Date.now()`
timestamps are explicit `Int` parameters threaded through each
operation; promises are identifiers, and asynchronous settlement
(the `.then` / `.catch` callbacks) is modelled by explicit state
transformers.  Fallible network calls are values of `NetResult`.
-/

namespace FrontDesk

/-! ## JavaScript `Map` and string primitives -/

/-- `Map.get`: first binding of the key, if any. -/
def mapGet {β : Type} (m : List (String × β)) (k : String) : Option β :=
  (m.find? (fun p => p.1 == k)).map Prod.snd

/-- `Map.set`: replace the binding in place if present, else append. -/
def mapSet {β : Type} (m : List (String × β)) (k : String) (v : β) :
    List (String × β) :=
  match m with
  | [] => [(k, v)]
  | (k', v') :: rest =>
    if k' == k then (k, v) :: rest else (k', v') :: mapSet rest k v

/-- `Map.delete`: remove every binding of the key. -/
def mapDelete {β : Type} (m : List (String × β)) (k : String) :
    List (String × β) :=
  m.filter (fun p => p.1 != k)

/-- Containment of `pat` in a list of characters, as in JS `String.includes`. -/
def listIncludes (pat : List Char) : List Char → Bool
  | [] => pat.isEmpty
  | c :: rest => pat.isPrefixOf (c :: rest) || listIncludes pat rest

/-- JS `s.includes(pat)`: `pat` occurs in `s` as a contiguous substring. -/
def strIncludes (s pat : String) : Bool :=
  listIncludes pat.toList s.toList

namespace EnhancedApi

/-! ## `src/services/enhancedApi.ts` -/

/-- `CacheEntry<T>`: `{ data, timestamp, ttl }` (times in milliseconds). -/
structure CacheEntry (α : Type) where
  data : α
  timestamp : Int
  ttl : Int
deriving DecidableEq, Repr

/-- `PendingRequest`: an in-flight promise (identifier) and its start time. -/
structure PendingRequest where
  promise : Nat
  timestamp : Int
deriving DecidableEq, Repr

/-- The mutable state of `EnhancedApiService`: the `cache` map, the
`pendingRequests` map, and a supply of fresh promise identifiers. -/
structure ApiState (α : Type) where
  cache : List (String × CacheEntry α)
  pending : List (String × PendingRequest)
  nextPromise : Nat
deriving DecidableEq, Repr

/-- `cacheTTL.doctors` = 5 minutes. -/
def cacheTTLdoctors : Int := 5 * 60 * 1000

/-- `cacheTTL.queue` = 30 seconds. -/
def cacheTTLqueue : Int := 30 * 1000

/-- `cacheTTL.default` = 1 minute. -/
def cacheTTLdefault : Int := 1 * 60 * 1000

/-- `getCacheKey(endpoint, params)`: the endpoint with the JSON
serialization of the params (when present) appended.  The serialized
params string is taken as given. -/
def getCacheKey (endpoint : String) (params : Option String) : String :=
  endpoint ++ params.getD ""

/-- `isValidCache(entry)`: `Date.now() - entry.timestamp < entry.ttl`. -/
def isValidCache {α : Type} (now : Int) (entry : CacheEntry α) : Bool :=
  now - entry.timestamp < entry.ttl

/-- `getCachedData(key)`: return the data of a valid entry; delete an
expired entry and return `null`; the returned state records the deletion. -/
def getCachedData {α : Type} (now : Int) (st : ApiState α) (key : String) :
    Option α × ApiState α :=
  match mapGet st.cache key with
  | some entry =>
    if isValidCache now entry then (some entry.data, st)
    else (none, { st with cache := mapDelete st.cache key })
  | none => (none, st)

/-- `setCachedData(key, data, ttl)`: store `{data, timestamp: Date.now(), ttl}`. -/
def setCachedData {α : Type} (now : Int) (st : ApiState α) (key : String)
    (data : α) (ttl : Int) : ApiState α :=
  { st with cache := mapSet st.cache key ⟨data, now, ttl⟩ }

/-- What a call to `makeRequest` does synchronously: serve from cache
(`requestFn` not invoked), return an in-flight promise (`requestFn` not
invoked), or invoke `requestFn` and register a new pending promise. -/
inductive RequestOutcome (α : Type) where
  | cached (data : α)
  | deduped (promise : Nat)
  | issued (promise : Nat)
deriving DecidableEq, Repr

/-- The synchronous prefix of `makeRequest(key, requestFn, ttl)`:
check the cache, then the pending map, else create a new request and
record it in `pendingRequests`. -/
def makeRequest {α : Type} (now : Int) (st : ApiState α) (key : String)
    (ttl : Int) : RequestOutcome α × ApiState α :=
  match getCachedData now st key with
  | (some cachedData, st1) => (.cached cachedData, st1)
  | (none, st1) =>
    match mapGet st1.pending key with
    | some pendingRequest => (.deduped pendingRequest.promise, st1)
    | none =>
      let pid := st1.nextPromise
      (.issued pid,
        { st1 with
          pending := mapSet st1.pending key ⟨pid, now⟩
          nextPromise := pid + 1 })

/-- The `.then` callback of the request promise created by `makeRequest`:
store the data under the key with the given ttl and a fresh timestamp,
then drop the `pendingRequests` entry. -/
def settleSuccess {α : Type} (now : Int) (st : ApiState α) (key : String)
    (data : α) (ttl : Int) : ApiState α :=
  let st1 := setCachedData now st key data ttl
  { st1 with pending := mapDelete st1.pending key }

/-- The `.catch` callback of the request promise created by `makeRequest`:
drop the `pendingRequests` entry (the error is rethrown). -/
def settleFailure {α : Type} (st : ApiState α) (key : String) : ApiState α :=
  { st with pending := mapDelete st.pending key }

/-- `invalidateCache(patterns)`: for each pattern, delete every cache key
containing it as a substring.  `pendingRequests` is untouched. -/
def invalidateCache {α : Type} (st : ApiState α) (patterns : List String) :
    ApiState α :=
  { st with
    cache := patterns.foldl
      (fun c pattern => c.filter (fun kv => !strIncludes kv.1 pattern))
      st.cache }

/-- `cleanupCache()`: delete every cache entry that is no longer valid. -/
def cleanupCache {α : Type} (now : Int) (st : ApiState α) : ApiState α :=
  { st with cache := st.cache.filter (fun kv => isValidCache now kv.2) }

/-- `cleanupPendingRequests()`: drop pending entries older than 30 s. -/
def cleanupPendingRequests {α : Type} (now : Int) (st : ApiState α) :
    ApiState α :=
  { st with
    pending := st.pending.filter (fun kv => !(30000 < now - kv.2.timestamp)) }

end EnhancedApi

/-! ## Data model (`src/services/api.ts` types) -/

/-- `Doctor.status`: `'available' | 'busy' | 'off-duty'`. -/
inductive DoctorStatus where
  | available
  | busy
  | offDuty
deriving DecidableEq, Repr

/-- One availability slot of a doctor. -/
structure Availability where
  day : String
  startTime : String
  endTime : String
deriving DecidableEq, Repr

/-- The `Doctor` record. -/
structure Doctor where
  id : Int
  name : String
  specialization : String
  gender : String
  location : String
  phone : Option String
  availability : Option (List Availability)
  status : DoctorStatus
  createdAt : String
deriving DecidableEq, Repr

/-- `QueueItem.status`: `'waiting' | 'with-doctor' | 'completed' | 'canceled'`. -/
inductive QueueStatus where
  | waiting
  | withDoctor
  | completed
  | canceled
deriving DecidableEq, Repr

/-- Outcome of an awaited network call: the resolved value, or a thrown
error (errors are distinguished by an identifier). -/
inductive NetResult (α : Type) where
  | ok (value : α)
  | err (errId : Nat)
deriving DecidableEq, Repr

namespace EnhancedApi

/-! ## Optimistic updates (`src/services/enhancedApi.ts`) -/

/-- The synchronous prefix of `updateDoctorStatusOptimistic(id, status)`,
up to the `apiService.updateDoctorStatus` call: read the cached doctor,
optimistically store the status-updated copy, then invalidate the
`doctors` and `doctors/available` caches.  Returns the doctor that was
cached (for the rollback path) and the state at the moment of the call. -/
def updateDoctorStatusPrepare (now : Int) (st : ApiState Doctor) (id : Int)
    (status : DoctorStatus) : Option Doctor × ApiState Doctor :=
  let doctorKey := getCacheKey ("doctors/" ++ toString id) none
  let doctorsKey := getCacheKey "doctors" none
  let availableDoctorsKey := getCacheKey "doctors/available" none
  let res := getCachedData now st doctorKey
  let cachedDoctor := res.1
  let st1 := res.2
  let st2 :=
    match cachedDoctor with
    | some d =>
      setCachedData now st1 doctorKey { d with status := status } cacheTTLdoctors
    | none => st1
  (cachedDoctor, invalidateCache st2 [doctorsKey, availableDoctorsKey])

/-- `updateDoctorStatusOptimistic(id, status)`: the prepare phase, the
network call (with outcome `net`, settling at time `now2`), then either
the server response is cached and returned, or the pre-call doctor is
restored and the error rethrown. -/
def updateDoctorStatusOptimistic (now now2 : Int) (st : ApiState Doctor)
    (id : Int) (status : DoctorStatus) (net : NetResult Doctor) :
    NetResult Doctor × ApiState Doctor :=
  let doctorKey := getCacheKey ("doctors/" ++ toString id) none
  let prep := updateDoctorStatusPrepare now st id status
  let cachedDoctor := prep.1
  let st1 := prep.2
  match net with
  | .ok result => (.ok result, setCachedData now2 st1 doctorKey result cacheTTLdoctors)
  | .err e =>
    match cachedDoctor with
    | some d => (.err e, setCachedData now2 st1 doctorKey d cacheTTLdoctors)
    | none => (.err e, st1)

/-- `completePatientOptimistic(id)`: invalidate the queue caches, make the
`completePatient` call (outcome `net`); on failure invalidate again and
rethrow. -/
def completePatientOptimistic {α β : Type} (st : ApiState α) (id : Int)
    (net : NetResult β) : NetResult β × ApiState α :=
  let st1 := invalidateCache st ["queue", "queue/waiting"]
  match net with
  | .ok q => (.ok q, st1)
  | .err e => (.err e, invalidateCache st1 ["queue", "queue/waiting"])

/-- `updateQueueStatus(id, status)`: invalidate queue caches, call the
status endpoint (outcome `net`); on failure, when `status` is
`'completed'`, fall back to `completePatientOptimistic` (outcome
`netFallback`), rethrowing the original error if the fallback fails too;
for any other status rethrow the original error. -/
def updateQueueStatus {α β : Type} (st : ApiState α) (id : Int)
    (status : QueueStatus) (net netFallback : NetResult β) :
    NetResult β × ApiState α :=
  let st1 := invalidateCache st ["queue", "queue/waiting"]
  match net with
  | .ok result => (.ok result, st1)
  | .err e =>
    if status == QueueStatus.completed then
      match completePatientOptimistic st1 id netFallback with
      | (.ok q, st2) => (.ok q, st2)
      | (.err _, st2) => (.err e, st2)
    else (.err e, st1)

end EnhancedApi

namespace Api

/-! ## `src/services/api.ts` -/

/-- The shape of an `AxiosError` as far as the retry logic reads it:
`response` is the HTTP status of the response when one was received,
`code` is the axios error code string when set. -/
structure AxiosError where
  response : Option Int
  code : Option String
deriving DecidableEq, Repr

/-- `maxRetries = 3`. -/
def maxRetries : Nat := 3

/-- `shouldRetry(error)`: with a response, retry on status `>= 500`,
`429` or `408`; with no response the source returns
`error.code === 'ECONNABORTED' || error.code === 'ENOTFOUND' ||
!error.response`, whose last disjunct is `true` in this branch. -/
def shouldRetry (error : AxiosError) : Bool :=
  match error.response with
  | some status => decide (500 ≤ status) || status == 429 || status == 408
  | none =>
    error.code == some "ECONNABORTED" || error.code == some "ENOTFOUND" || true

/-- The backoff delay computed at retry counter `n`:
`Math.min(1000 * Math.pow(2, n), 10000)`. -/
def retryDelay (n : Nat) : Int :=
  min (1000 * 2 ^ n) 10000

/-- `retryRequest(request)` unrolled from retry counter `retryCount`:
`attempt i` is the outcome of the `i`-th invocation of the wrapped
request function.  Returns the final outcome together with the list of
backoff delays that were slept, one per retry. -/
def retryRequestFrom {α : Type} (attempt : Nat → Except AxiosError α)
    (i : Nat) (retryCount : Nat) : Except AxiosError α × List Int :=
  match attempt i with
  | .ok result => (.ok result, [])
  | .error e =>
    if h : retryCount < maxRetries ∧ shouldRetry e = true then
      let delay := retryDelay (retryCount + 1)
      let rest := retryRequestFrom attempt (i + 1) (retryCount + 1)
      (rest.1, delay :: rest.2)
    else (.error e, [])
termination_by maxRetries - retryCount
decreasing_by simp_wf; omega

/-- `retryRequest(request)` as called on a fresh service: `retryCount = 0`. -/
def retryRequest {α : Type} (attempt : Nat → Except AxiosError α) :
    Except AxiosError α × List Int :=
  retryRequestFrom attempt 0 0

/-- An outbound request configuration: its header map. -/
structure RequestConfig where
  headers : List (String × String)
deriving DecidableEq, Repr

/-- The request interceptor of `ApiService` in `src/services/api.ts`
(lines 113–121): `(config) => { return config; }`. -/
def requestInterceptor (config : RequestConfig) : RequestConfig :=
  config

/-- The request interceptor of the `ApiService` variant embedded in
`src/services/enhancedApi.ts`: read `localStorage.getItem('accessToken')`
and, when the token is truthy (`if (token)` — present and not the empty
string), set the `Authorization` header to `Bearer <token>`. -/
def requestInterceptorVariant (storage : List (String × String))
    (config : RequestConfig) : RequestConfig :=
  match mapGet storage "accessToken" with
  | some token =>
    if token != "" then
      { config with
        headers := mapSet config.headers "Authorization" ("Bearer " ++ token) }
    else config
  | none => config

end Api

namespace ErrorH

/-! ## `src/utils/errorHandler.ts` -/

/-- `ErrorHandler.shouldRetry(error)` restricted to `AxiosError` inputs
(on any non-axios value the source returns `true`).  `status` is truthy
in JS iff present and nonzero. -/
def shouldRetry (error : Api.AxiosError) : Bool :=
  match error.response with
  | some status =>
    if status != 0 && decide (400 ≤ status) && decide (status < 500) &&
        status != 429 && status != 408 then
      false
    else if status != 0 then
      decide (500 ≤ status) || status == 429 || status == 408
    else true
  | none => true

end ErrorH

namespace Validation

/-! ## `src/utils/validation.ts` -/

/-- The JavaScript values `validateField` distinguishes. -/
inductive JSValue where
  | nullV
  | undefinedV
  | boolV (b : Bool)
  | numV (n : Int)
  | strV (s : String)
deriving DecidableEq, Repr

/-- JS truthiness of a `JSValue`. -/
def truthy : JSValue → Bool
  | .nullV => false
  | .undefinedV => false
  | .boolV b => b
  | .numV n => n != 0
  | .strV s => s != ""

/-- `ValidationRule`: all fields optional (`required` absent is falsy). -/
structure ValidationRule where
  required : Bool
  minLength : Option Nat
  maxLength : Option Nat
  pattern : Option (String → Bool)
  customValidator : Option (JSValue → Option String)

/-- JS truthiness of an optional numeric rule field: set and nonzero. -/
def numTruthy : Option Nat → Bool
  | some n => n != 0
  | none => false

/-- JS `String.prototype.trim`: strip whitespace from both ends
(whitespace as `Char.isWhitespace`). -/
def jsTrim (s : String) : String :=
  ⟨((s.toList.dropWhile Char.isWhitespace).reverse.dropWhile
      Char.isWhitespace).reverse⟩

/-- The emptiness test used twice by `validateField`:
`!value || (typeof value === 'string' && value.trim() === '')`. -/
def isEmptyValue (value : JSValue) : Bool :=
  !truthy value ||
    (match value with
     | .strV s => jsTrim s == ""
     | _ => false)

/-- The `typeof value === 'string'` block of `validateField`: the
`minLength`, `maxLength` and `pattern` checks, in source order. -/
def stringChecks (s : String) (rules : ValidationRule) : Option String :=
  if numTruthy rules.minLength && decide (s.length < rules.minLength.getD 0) then
    some ("Minimum " ++ toString (rules.minLength.getD 0) ++ " characters required")
  else if numTruthy rules.maxLength && decide (rules.maxLength.getD 0 < s.length) then
    some ("Maximum " ++ toString (rules.maxLength.getD 0) ++ " characters allowed")
  else
    match rules.pattern with
    | some p => if !p s then some "Invalid format" else none
    | none => none

/-- `validateField(value, rules)`. -/
def validateField (value : JSValue) (rules : ValidationRule) : Option String :=
  if rules.required && isEmptyValue value then some "Required field"
  else if isEmptyValue value then none
  else
    let strError :=
      match value with
      | .strV s => stringChecks s rules
      | _ => none
    match strError with
    | some msg => some msg
    | none =>
      match rules.customValidator with
      | some f => f value
      | none => none

/-- The specification's notion of an empty value: `null`, `undefined`,
any falsy value, or a string consisting only of whitespace. -/
def specEmptyValue (value : JSValue) : Bool :=
  value == JSValue.nullV || value == JSValue.undefinedV || !truthy value ||
    (match value with
     | .strV s => jsTrim s == ""
     | _ => false)

/-- A length bound is active when it is present and nonzero (a bound of
`0` is falsy in JS and so behaves as unset). -/
def specBoundActive : Option Nat → Bool
  | some m => decide (0 < m)
  | none => false

/-- The specification's description of the non-empty-string path of
`validateField`: the checks are applied in the fixed order `minLength`,
`maxLength`, `pattern`, `customValidator`, and the message of the first
violated rule is returned (length bounds equal to `0` act as unset). -/
def specFieldCheck (s : String) (rules : ValidationRule) : Option String :=
  if specBoundActive rules.minLength && decide (s.length < rules.minLength.getD 0) then
    some ("Minimum " ++ toString (rules.minLength.getD 0) ++ " characters required")
  else if specBoundActive rules.maxLength && decide (rules.maxLength.getD 0 < s.length) then
    some ("Maximum " ++ toString (rules.maxLength.getD 0) ++ " characters allowed")
  else if (match rules.pattern with
           | some p => !p s
           | none => false) then
    some "Invalid format"
  else
    match rules.customValidator with
    | some f => f (JSValue.strV s)
    | none => none

end Validation

/-! ## Concrete states and inputs used by witnesses and counterexamples -/

/-- A cache state holding an expired entry for `"k"` (age 10 at time 10,
ttl 5) together with an in-flight request for `"k"`. -/
def exStalePending : EnhancedApi.ApiState Nat :=
  { cache := [("k", ⟨7, 0, 5⟩)], pending := [("k", ⟨42, 0⟩)], nextPromise := 1 }

/-- A cache state holding an expired entry for `"k"` and no pending request. -/
def exStale : EnhancedApi.ApiState Nat :=
  { cache := [("k", ⟨7, 0, 5⟩)], pending := [], nextPromise := 0 }

/-- A cache state holding a fresh entry for `"k"` (age 10 at time 10, ttl 50). -/
def exFresh : EnhancedApi.ApiState Nat :=
  { cache := [("k", ⟨7, 0, 50⟩)], pending := [], nextPromise := 0 }

/-- A state with an in-flight request for `"k"` and an empty cache. -/
def exPending : EnhancedApi.ApiState Nat :=
  { cache := [], pending := [("k", ⟨42, 0⟩)], nextPromise := 1 }

/-- A concrete doctor record. -/
def exDoctor : Doctor :=
  { id := 5, name := "A", specialization := "s", gender := "g", location := "l",
    phone := none, availability := none, status := DoctorStatus.available,
    createdAt := "t" }

/-- A state whose cache holds a fresh entry for `"doctors/5"`. -/
def exDoctorState : EnhancedApi.ApiState Doctor :=
  { cache := [("doctors/5", ⟨exDoctor, 0, 100⟩)], pending := [], nextPromise := 0 }

/-- A state with one fresh (`"a"`) and one expired (`"b"`) entry at time 10. -/
def exMixed : EnhancedApi.ApiState Nat :=
  { cache := [("a", ⟨1, 0, 100⟩), ("b", ⟨2, 0, 5⟩)], pending := [("p", ⟨3, 0⟩)],
    nextPromise := 0 }

/-- A state whose cache key `"enqueue"` contains `"queue"` as a substring
without beginning with it. -/
def exEnqueue : EnhancedApi.ApiState Nat :=
  { cache := [("enqueue", ⟨1, 0, 100⟩)], pending := [], nextPromise := 0 }

/-- A state with a queue key and an unrelated key in the cache, and a
pending request under a queue key. -/
def exQueueState : EnhancedApi.ApiState Nat :=
  { cache := [("queue/waiting", ⟨1, 0, 100⟩), ("doctors", ⟨2, 0, 100⟩)],
    pending := [("queue", ⟨3, 0⟩)], nextPromise := 0 }

/-- A request function failing every time with HTTP 500. -/
def exAttempt500 : Nat → Except Api.AxiosError Nat :=
  fun _ => Except.error ⟨some 500, none⟩

/-- A request function failing every time with HTTP 404. -/
def exAttempt404 : Nat → Except Api.AxiosError Nat :=
  fun _ => Except.error ⟨some 404, none⟩

/-- A validation rule set whose only constraint is `maxLength: 0`. -/
def exRulesMax0 : Validation.ValidationRule :=
  { required := false, minLength := none, maxLength := some 0,
    pattern := none, customValidator := none }

/-! ## Helper lemmas about the map and string primitives -/

theorem mapGet_nil {β : Type} (k : String) :
    mapGet ([] : List (String × β)) k = none := rfl

theorem mapGet_cons {β : Type} (k' : String) (v : β) (rest : List (String × β))
    (k : String) :
    mapGet ((k', v) :: rest) k = if k' = k then some v else mapGet rest k := by
  by_cases h : k' = k
  · subst h
    simp [mapGet, List.find?_cons]
  · have hb : (k' == k) = false := by simp [h]
    simp [mapGet, List.find?_cons, hb, h]

theorem mapGet_eq_none_of_not_mem {β : Type} (m : List (String × β))
    (k : String) (h : k ∉ m.map Prod.fst) : mapGet m k = none := by
  induction m with
  | nil => rfl
  | cons hd tl ih =>
    obtain ⟨k', v⟩ := hd
    simp only [List.map_cons, List.mem_cons] at h
    push_neg at h
    rw [mapGet_cons, if_neg (Ne.symm h.1)]
    exact ih h.2

theorem mapGet_filter_key {β : Type} (m : List (String × β)) (q : String → Bool)
    (k : String) :
    mapGet (m.filter (fun kv => q kv.1)) k
      = if q k then mapGet m k else none := by
  induction m with
  | nil => simp [mapGet_nil]
  | cons hd tl ih =>
    obtain ⟨a, b⟩ := hd
    rw [List.filter_cons]
    by_cases hq : q a = true
    · rw [if_pos (by simpa using hq)]
      by_cases hak : a = k
      · subst hak
        simp [mapGet_cons, hq]
      · simp [mapGet_cons, hak, ih]
    · rw [if_neg (by simpa using hq)]
      rw [ih]
      by_cases hak : a = k
      · subst hak
        simp [mapGet_cons, hq]
      · simp [mapGet_cons, hak]

theorem mapGet_filter_val {β : Type} (m : List (String × β)) (p : β → Bool)
    (k : String) (hnd : (m.map Prod.fst).Nodup) :
    mapGet (m.filter (fun kv => p kv.2)) k
      = (mapGet m k).bind (fun v => if p v then some v else none) := by
  induction m with
  | nil => rfl
  | cons hd tl ih =>
    obtain ⟨a, b⟩ := hd
    simp only [List.map_cons, List.nodup_cons] at hnd
    rw [List.filter_cons]
    by_cases hp : p b = true
    · rw [if_pos (by simpa using hp)]
      by_cases hak : a = k
      · subst hak
        simp [mapGet_cons, hp]
      · simp [mapGet_cons, hak, ih hnd.2]
    · rw [if_neg (by simpa using hp)]
      by_cases hak : a = k
      · subst hak
        rw [mapGet_cons, if_pos rfl, ih hnd.2]
        rw [mapGet_eq_none_of_not_mem tl a hnd.1]
        simp [hp]
      · rw [mapGet_cons, if_neg hak, ih hnd.2]

theorem mapGet_mapSet_self {β : Type} (m : List (String × β)) (k : String)
    (v : β) : mapGet (mapSet m k v) k = some v := by
  induction m with
  | nil => simp [mapSet, mapGet_cons]
  | cons hd tl ih =>
    obtain ⟨a, b⟩ := hd
    by_cases hak : a = k
    · subst hak
      simp [mapSet, mapGet_cons]
    · have hb : (a == k) = false := by simp [hak]
      simp only [mapSet, hb, Bool.false_eq_true, if_false]
      rw [mapGet_cons, if_neg hak]
      exact ih

theorem mapGet_mapSet_ne {β : Type} (m : List (String × β)) (k k' : String)
    (v : β) (h : k' ≠ k) : mapGet (mapSet m k v) k' = mapGet m k' := by
  induction m with
  | nil =>
    rw [mapSet, mapGet_cons, if_neg (Ne.symm h)]
  | cons hd tl ih =>
    obtain ⟨a, b⟩ := hd
    by_cases hak : a = k
    · subst hak
      simp only [mapSet, beq_self_eq_true, if_true]
      rw [mapGet_cons, mapGet_cons, if_neg (Ne.symm h), if_neg (Ne.symm h)]
    · have hb : (a == k) = false := by simp [hak]
      simp only [mapSet, hb, Bool.false_eq_true, if_false]
      rw [mapGet_cons, mapGet_cons]
      by_cases h0 : a = k'
      · simp [h0]
      · rw [if_neg h0, if_neg h0, ih]

theorem mapGet_mapDelete_self {β : Type} (m : List (String × β)) (k : String) :
    mapGet (mapDelete m k) k = none := by
  have h := mapGet_filter_key m (fun k1 => k1 != k) k
  simp only [bne_self_eq_false, if_neg] at h
  simpa [mapDelete] using h

theorem mapGet_mapDelete_ne {β : Type} (m : List (String × β)) (k k' : String)
    (h : k' ≠ k) : mapGet (mapDelete m k) k' = mapGet m k' := by
  have hfk := mapGet_filter_key m (fun k1 => k1 != k) k'
  rw [if_pos (by simp [h])] at hfk
  simpa [mapDelete] using hfk

theorem listIncludes_iff (pat l : List Char) :
    listIncludes pat l = true ↔ pat <:+: l := by
  induction l with
  | nil =>
    simp [listIncludes, List.infix_nil, List.isEmpty_iff]
  | cons c rest ih =>
    simp [listIncludes, List.infix_cons_iff, ih, List.isPrefixOf_iff_prefix]

theorem strIncludes_iff (s pat : String) :
    strIncludes s pat = true ↔ pat.toList <:+: s.toList := by
  simp [strIncludes, listIncludes_iff]

theorem strIncludes_of_isPrefixOf (s pat : String)
    (h : pat.toList.isPrefixOf s.toList = true) : strIncludes s pat = true := by
  rw [strIncludes_iff]
  exact (List.isPrefixOf_iff_prefix.1 h).isInfix

theorem invalidate_foldl {β : Type} (patterns : List String)
    (c : List (String × β)) :
    patterns.foldl
        (fun c pattern => c.filter (fun kv => !strIncludes kv.1 pattern)) c
      = c.filter
          (fun kv => !patterns.any (fun pattern => strIncludes kv.1 pattern)) := by
  induction patterns generalizing c with
  | nil => simp
  | cons p ps ih =>
    rw [List.foldl_cons, ih, List.filter_filter]
    apply List.filter_congr
    intro kv _
    simp [List.any_cons, Bool.not_or, Bool.and_comm]

theorem mapGet_invalidateCache {α : Type} (st : EnhancedApi.ApiState α)
    (patterns : List String) (k : String) :
    mapGet (EnhancedApi.invalidateCache st patterns).cache k
      = if patterns.any (fun pattern => strIncludes k pattern) then none
        else mapGet st.cache k := by
  show mapGet (patterns.foldl
      (fun c pattern => c.filter (fun kv => !strIncludes kv.1 pattern))
      st.cache) k = _
  rw [invalidate_foldl]
  rw [mapGet_filter_key st.cache
    (fun k1 => !patterns.any (fun pattern => strIncludes k1 pattern)) k]
  by_cases h : patterns.any (fun pattern => strIncludes k pattern) = true
  · simp [h]
  · simp [h]

theorem retryRequestFrom_length_le {α : Type}
    (attempt : Nat → Except Api.AxiosError α) :
    ∀ fuel i retryCount, Api.maxRetries - retryCount ≤ fuel →
      (Api.retryRequestFrom attempt i retryCount).2.length
        ≤ Api.maxRetries - retryCount := by
  intro fuel
  induction fuel with
  | zero =>
    intro i rc h
    rw [Api.retryRequestFrom.eq_def]
    cases hA : attempt i with
    | ok result => simp
    | error e =>
      dsimp only
      rw [dif_neg (fun hc => by
        obtain ⟨h1, h2⟩ := hc
        simp only [Api.maxRetries] at h1 h
        omega)]
      simp
  | succ n ih =>
    intro i rc h
    rw [Api.retryRequestFrom.eq_def]
    cases hA : attempt i with
    | ok result => simp
    | error e =>
      dsimp only
      by_cases hd : rc < Api.maxRetries ∧ Api.shouldRetry e = true
      · rw [dif_pos hd]
        have hle := ih (i + 1) (rc + 1) (by omega)
        obtain ⟨h1, h2⟩ := hd
        simp only [List.length_cons]
        omega
      · rw [dif_neg hd]
        simp

theorem retryRequestFrom_get {α : Type}
    (attempt : Nat → Except Api.AxiosError α) :
    ∀ fuel i retryCount, Api.maxRetries - retryCount ≤ fuel →
      ∀ j (hj : j < (Api.retryRequestFrom attempt i retryCount).2.length),
        (Api.retryRequestFrom attempt i retryCount).2.get ⟨j, hj⟩
          = Api.retryDelay (retryCount + j + 1) := by
  intro fuel
  induction fuel with
  | zero =>
    intro i rc h j hj
    exfalso
    have hlen := retryRequestFrom_length_le attempt 0 i rc h
    simp only [Api.maxRetries] at h hlen
    omega
  | succ n ih =>
    intro i rc h j hj
    revert hj
    rw [Api.retryRequestFrom.eq_def]
    cases hA : attempt i with
    | ok result => intro hj; exact absurd hj (by simp)
    | error e =>
      dsimp only
      by_cases hd : rc < Api.maxRetries ∧ Api.shouldRetry e = true
      · rw [dif_pos hd]
        cases j with
        | zero => intro hj; rfl
        | succ j0 =>
          intro hj
          have hj0 : j0 < (Api.retryRequestFrom attempt (i + 1) (rc + 1)).2.length := by
            simpa using Nat.lt_of_succ_lt_succ hj
          have := ih (i + 1) (rc + 1) (by omega) j0 hj0
          simp only [List.get_cons_succ]
          rw [this]
          congr 1
          omega
      · rw [dif_neg hd]
        intro hj
        exact absurd hj (by simp)

theorem retryRequestFrom_allFail {α : Type}
    (attempt : Nat → Except Api.AxiosError α)
    (hfail : ∀ n, ∃ e, attempt n = Except.error e) :
    ∀ fuel i retryCount, Api.maxRetries - retryCount ≤ fuel →
      (Api.retryRequestFrom attempt i retryCount).1
        = attempt (i + (Api.retryRequestFrom attempt i retryCount).2.length) := by
  intro fuel
  induction fuel with
  | zero =>
    intro i rc h
    obtain ⟨e, hA⟩ := hfail i
    rw [Api.retryRequestFrom.eq_def, hA]
    dsimp only
    rw [dif_neg (fun hc => by
      obtain ⟨h1, h2⟩ := hc
      simp only [Api.maxRetries] at h1 h
      omega)]
    simp [hA]
  | succ n ih =>
    intro i rc h
    obtain ⟨e, hA⟩ := hfail i
    rw [Api.retryRequestFrom.eq_def, hA]
    dsimp only
    by_cases hd : rc < Api.maxRetries ∧ Api.shouldRetry e = true
    · rw [dif_pos hd]
      have hrec := ih (i + 1) (rc + 1) (by omega)
      simp only [List.length_cons]
      rw [hrec]
      congr 1
      omega
    · rw [dif_neg hd]
      simp [hA]

/-! ## Behaviour of `getCachedData` -/

theorem getCachedData_some_valid {α : Type} (now : Int)
    (st : EnhancedApi.ApiState α) (k : String) (e : EnhancedApi.CacheEntry α)
    (he : mapGet st.cache k = some e) (hv : now - e.timestamp < e.ttl) :
    EnhancedApi.getCachedData now st k = (some e.data, st) := by
  unfold EnhancedApi.getCachedData
  rw [he]
  simp [EnhancedApi.isValidCache, hv]

theorem getCachedData_some_expired {α : Type} (now : Int)
    (st : EnhancedApi.ApiState α) (k : String) (e : EnhancedApi.CacheEntry α)
    (he : mapGet st.cache k = some e) (hx : e.ttl ≤ now - e.timestamp) :
    EnhancedApi.getCachedData now st k
      = (none, { st with cache := mapDelete st.cache k }) := by
  unfold EnhancedApi.getCachedData
  rw [he]
  simp [EnhancedApi.isValidCache]
  omega

theorem getCachedData_none {α : Type} (now : Int)
    (st : EnhancedApi.ApiState α) (k : String)
    (he : mapGet st.cache k = none) :
    EnhancedApi.getCachedData now st k = (none, st) := by
  unfold EnhancedApi.getCachedData
  rw [he]

/-! ## Claim C1 -/

/-- C1, counterexample: in a state whose cache holds an entry for `"k"`
whose age (10) is at least its ttl (5) but where a request for `"k"` is
also in flight, `makeRequest` does delete the expired entry but returns
the pending promise: no fresh request is issued, contradicting the
claim's unconditional "a fresh request is issued". -/
theorem claim1_counterexample :
    mapGet exStalePending.cache "k" = some ⟨7, 0, 5⟩ ∧
    (⟨7, 0, 5⟩ : EnhancedApi.CacheEntry Nat).ttl
      ≤ 10 - (⟨7, 0, 5⟩ : EnhancedApi.CacheEntry Nat).timestamp ∧
    EnhancedApi.makeRequest 10 exStalePending "k" 30
      = (.deduped 42,
         { cache := [], pending := [("k", ⟨42, 0⟩)], nextPromise := 1 }) := by
  refine ⟨rfl, by decide, ?_⟩
  rfl

/-- C1 (amended): when the cache holds an entry for `k` whose age is
strictly below its ttl, `makeRequest` returns the stored data without
touching the state (the request function is not invoked: the outcome is
`cached`).  When the cache holds an entry whose age is at least its ttl,
that entry is deleted from the cache, and — provided no request for `k`
is pending — a fresh request is issued (outcome `issued`) whose
successful settlement stores its result under `k` with the given ttl and
the settlement timestamp. -/
theorem claim1_makeRequest_ttl {α : Type} (now now2 : Int)
    (st : EnhancedApi.ApiState α) (k : String) (ttl : Int)
    (e : EnhancedApi.CacheEntry α) (d : α)
    (he : mapGet st.cache k = some e) :
    (now - e.timestamp < e.ttl →
      EnhancedApi.makeRequest now st k ttl = (.cached e.data, st)) ∧
    (e.ttl ≤ now - e.timestamp →
      mapGet (EnhancedApi.makeRequest now st k ttl).2.cache k = none ∧
      (mapGet st.pending k = none →
        EnhancedApi.makeRequest now st k ttl
          = (.issued st.nextPromise,
             { cache := mapDelete st.cache k,
               pending := mapSet st.pending k ⟨st.nextPromise, now⟩,
               nextPromise := st.nextPromise + 1 }) ∧
        mapGet (EnhancedApi.settleSuccess now2
            (EnhancedApi.makeRequest now st k ttl).2 k d ttl).cache k
          = some ⟨d, now2, ttl⟩ ∧
        mapGet (EnhancedApi.settleSuccess now2
            (EnhancedApi.makeRequest now st k ttl).2 k d ttl).pending k
          = none)) := by
  constructor
  · intro hv
    unfold EnhancedApi.makeRequest
    rw [getCachedData_some_valid now st k e he hv]
  · intro hx
    have hg := getCachedData_some_expired now st k e he hx
    unfold EnhancedApi.makeRequest
    rw [hg]
    dsimp only
    cases hp : mapGet st.pending k with
    | some p =>
      dsimp only
      refine ⟨mapGet_mapDelete_self st.cache k, fun hnone => ?_⟩
      exact Option.noConfusion hnone
    | none =>
      dsimp only
      refine ⟨mapGet_mapDelete_self st.cache k, fun _ => ⟨rfl, ?_, ?_⟩⟩
      · unfold EnhancedApi.settleSuccess EnhancedApi.setCachedData
        dsimp only
        exact mapGet_mapSet_self _ k _
      · unfold EnhancedApi.settleSuccess EnhancedApi.setCachedData
        dsimp only
        exact mapGet_mapDelete_self _ k

/-- C1, witness: the amended theorem applied to the concrete expired
entry of `exStale` (age 10, ttl 5) with no pending request. -/
theorem claim1_witness :
    (⟨7, 0, 5⟩ : EnhancedApi.CacheEntry Nat).ttl
      ≤ 10 - (⟨7, 0, 5⟩ : EnhancedApi.CacheEntry Nat).timestamp ∧
    mapGet (EnhancedApi.makeRequest 10 exStale "k" 30).2.cache "k" = none ∧
    EnhancedApi.makeRequest 10 exStale "k" 30
      = (.issued exStale.nextPromise,
         { cache := mapDelete exStale.cache "k",
           pending := mapSet exStale.pending "k" ⟨exStale.nextPromise, 10⟩,
           nextPromise := exStale.nextPromise + 1 }) ∧
    mapGet (EnhancedApi.settleSuccess 20
        (EnhancedApi.makeRequest 10 exStale "k" 30).2 "k" 9 30).cache "k"
      = some ⟨9, 20, 30⟩ :=
  have h := (claim1_makeRequest_ttl 10 20 exStale "k" 30 ⟨7, 0, 5⟩ 9 rfl).2
    (by decide)
  ⟨by decide, h.1, (h.2 rfl).1, (h.2 rfl).2.1⟩

/-! ## Claim C2 -/

/-- C2: while a request for `k` is in flight and the cache holds no
fresh entry for `k` (no entry at all, or only an expired one), a further
call to `makeRequest` for `k` returns the promise of the pending request
(outcome `deduped`: the request function is not invoked again); and when
the in-flight request settles — resolving (`settleSuccess`) or rejecting
(`settleFailure`) — its `pendingRequests` entry for `k` is removed. -/
theorem claim2_dedup {α : Type} (now : Int) (st : EnhancedApi.ApiState α)
    (k : String) (ttl : Int) (p : EnhancedApi.PendingRequest)
    (hp : mapGet st.pending k = some p)
    (hc : mapGet st.cache k = none ∨
      ∃ e, mapGet st.cache k = some e ∧ e.ttl ≤ now - e.timestamp) :
    (EnhancedApi.makeRequest now st k ttl).1 = .deduped p.promise ∧
    (∀ now2 (d : α) ttl2,
      mapGet (EnhancedApi.settleSuccess now2 st k d ttl2).pending k = none) ∧
    mapGet (EnhancedApi.settleFailure st k).pending k = none := by
  refine ⟨?_, ?_, ?_⟩
  · cases hc with
    | inl hnone =>
      unfold EnhancedApi.makeRequest
      rw [getCachedData_none now st k hnone]
      dsimp only
      rw [hp]
    | inr hex =>
      obtain ⟨e, he, hx⟩ := hex
      unfold EnhancedApi.makeRequest
      rw [getCachedData_some_expired now st k e he hx]
      dsimp only
      rw [hp]
  · intro now2 d ttl2
    unfold EnhancedApi.settleSuccess EnhancedApi.setCachedData
    dsimp only
    exact mapGet_mapDelete_self _ k
  · unfold EnhancedApi.settleFailure
    exact mapGet_mapDelete_self _ k

/-- C2, witness: the deduplication theorem applied to the concrete state
`exPending` (an in-flight request for `"k"`, empty cache). -/
theorem claim2_witness :
    mapGet exPending.pending "k" = some ⟨42, 0⟩ ∧
    (EnhancedApi.makeRequest 10 exPending "k" 30).1 = .deduped 42 ∧
    mapGet (EnhancedApi.settleFailure exPending "k").pending "k" = none :=
  have h := claim2_dedup 10 exPending "k" 30 ⟨42, 0⟩ rfl (Or.inl rfl)
  ⟨rfl, h.1, h.2.2⟩

/-! ## Claim C3 -/

theorem getCacheKey_none (endpoint : String) :
    EnhancedApi.getCacheKey endpoint none = endpoint := by
  show endpoint ++ "" = endpoint
  exact String.append_empty endpoint

theorem strIncludes_doctors_key (s : String) :
    strIncludes ("doctors/" ++ s) "doctors" = true := by
  rw [strIncludes_iff]
  refine List.IsPrefix.isInfix ?_
  have hl : ("doctors/" ++ s).toList = "doctors".toList ++ ('/' :: s.toList) := by
    show ("doctors/" ++ s).data = "doctors".data ++ ('/' :: s.data)
    rw [String.data_append]
    have hd : "doctors/".data = "doctors".data ++ ['/'] := by decide
    rw [hd, List.append_assoc]
    rfl
  rw [hl]
  exact List.prefix_append _ _

/-- C3, counterexample: with a fresh doctor cached under `"doctors/5"`,
the pre-network-call phase of `updateDoctorStatusOptimistic` leaves the
cache with no entry at all under `"doctors/5"`: the optimistic write is
erased by the following invalidation (whose pattern `"doctors"` matches
the key), so the cache does not carry the new status at the moment the
network call is made. -/
theorem claim3_counterexample :
    mapGet exDoctorState.cache "doctors/5" = some ⟨exDoctor, 0, 100⟩ ∧
    (10 - (0 : Int)) < 100 ∧
    (EnhancedApi.updateDoctorStatusPrepare 10 exDoctorState 5
        DoctorStatus.busy).1 = some exDoctor ∧
    mapGet (EnhancedApi.updateDoctorStatusPrepare 10 exDoctorState 5
        DoctorStatus.busy).2.cache "doctors/5" = none := by
  refine ⟨rfl, by decide, ?_, ?_⟩ <;> rfl

/-- C3 (amended): with a fresh doctor cached under `doctors/{id}`,
`updateDoctorStatusOptimistic(id, status)` first stores the
status-updated doctor under `doctors/{id}`, but the subsequent
invalidation of the `doctors`/`doctors/available` caches deletes that key
too (substring match), so the cache holds no entry for `doctors/{id}`
when the network call is made; if the network call fails, the doctor
value cached before the call is restored under `doctors/{id}` (with a
fresh timestamp) and the error is rethrown to the caller. -/
theorem claim3_optimistic_rollback (now now2 : Int)
    (st : EnhancedApi.ApiState Doctor) (id : Int) (status : DoctorStatus)
    (e : EnhancedApi.CacheEntry Doctor) (errId : Nat)
    (he : mapGet st.cache
        (EnhancedApi.getCacheKey ("doctors/" ++ toString id) none) = some e)
    (hv : now - e.timestamp < e.ttl) :
    mapGet (EnhancedApi.setCachedData now st
        (EnhancedApi.getCacheKey ("doctors/" ++ toString id) none)
        { e.data with status := status } EnhancedApi.cacheTTLdoctors).cache
        (EnhancedApi.getCacheKey ("doctors/" ++ toString id) none)
      = some ⟨{ e.data with status := status }, now,
          EnhancedApi.cacheTTLdoctors⟩ ∧
    (EnhancedApi.updateDoctorStatusPrepare now st id status).1 = some e.data ∧
    mapGet (EnhancedApi.updateDoctorStatusPrepare now st id status).2.cache
        (EnhancedApi.getCacheKey ("doctors/" ++ toString id) none) = none ∧
    (EnhancedApi.updateDoctorStatusOptimistic now now2 st id status
        (.err errId)).1 = .err errId ∧
    mapGet (EnhancedApi.updateDoctorStatusOptimistic now now2 st id status
        (.err errId)).2.cache
        (EnhancedApi.getCacheKey ("doctors/" ++ toString id) none)
      = some ⟨e.data, now2, EnhancedApi.cacheTTLdoctors⟩ := by
  have hprep : EnhancedApi.updateDoctorStatusPrepare now st id status
      = (some e.data,
         EnhancedApi.invalidateCache
           (EnhancedApi.setCachedData now st
             (EnhancedApi.getCacheKey ("doctors/" ++ toString id) none)
             { e.data with status := status } EnhancedApi.cacheTTLdoctors)
           [EnhancedApi.getCacheKey "doctors" none,
            EnhancedApi.getCacheKey "doctors/available" none]) := by
    unfold EnhancedApi.updateDoctorStatusPrepare
    dsimp only
    rw [getCachedData_some_valid now st _ e he hv]
  have hinc : strIncludes
      (EnhancedApi.getCacheKey ("doctors/" ++ toString id) none)
      (EnhancedApi.getCacheKey "doctors" none) = true := by
    rw [getCacheKey_none, getCacheKey_none]
    exact strIncludes_doctors_key (toString id)
  have hgone : mapGet (EnhancedApi.updateDoctorStatusPrepare now st id
      status).2.cache
      (EnhancedApi.getCacheKey ("doctors/" ++ toString id) none) = none := by
    rw [hprep]
    rw [mapGet_invalidateCache]
    rw [if_pos (by simp [List.any_cons, hinc])]
  refine ⟨?_, ?_, hgone, ?_, ?_⟩
  · exact mapGet_mapSet_self _ _ _
  · rw [hprep]
  · unfold EnhancedApi.updateDoctorStatusOptimistic
    rw [hprep]
  · unfold EnhancedApi.updateDoctorStatusOptimistic
    rw [hprep]
    dsimp only
    exact mapGet_mapSet_self _ _ _

/-- C3, witness: the rollback theorem applied to the concrete state
`exDoctorState` (doctor `exDoctor` cached fresh under `"doctors/5"`) with
a failing network call. -/
theorem claim3_witness :
    (EnhancedApi.updateDoctorStatusOptimistic 10 20 exDoctorState 5
        DoctorStatus.busy (.err 3)).1 = .err 3 ∧
    mapGet (EnhancedApi.updateDoctorStatusOptimistic 10 20 exDoctorState 5
        DoctorStatus.busy (.err 3)).2.cache
        (EnhancedApi.getCacheKey ("doctors/" ++ toString (5 : Int)) none)
      = some ⟨exDoctor, 20, EnhancedApi.cacheTTLdoctors⟩ :=
  have h := claim3_optimistic_rollback 10 20 exDoctorState 5
    DoctorStatus.busy ⟨exDoctor, 0, 100⟩ 3 rfl (by decide)
  ⟨h.2.2.2.1, h.2.2.2.2⟩

/-! ## Claim C4 -/

/-- C4: the retry predicate of `ApiService` holds exactly on transient
failures — a response with status `>= 500`, `429` or `408`, or a network
failure with no response at all (which covers `ECONNABORTED` and
`ENOTFOUND`); `ErrorHandler.shouldRetry` agrees with it on every error
with no response or with a real (nonzero) HTTP status; a failure with any
other 4xx status is propagated immediately, with no retry and no backoff
sleep; and the delay slept before the `n`-th retry is
`min(1000 * 2^n, 10000)` milliseconds. -/
theorem claim4_retry_policy {α : Type} (e : Api.AxiosError)
    (attempt : Nat → Except Api.AxiosError α) :
    (Api.shouldRetry e = true ↔
      e.response = none ∨
        ∃ s, e.response = some s ∧ (500 ≤ s ∨ s = 429 ∨ s = 408)) ∧
    (e.response = none → ErrorH.shouldRetry e = true) ∧
    (∀ s, e.response = some s → s ≠ 0 →
      ErrorH.shouldRetry e = Api.shouldRetry e) ∧
    (∀ s, e.response = some s → 400 ≤ s → s < 500 → s ≠ 429 → s ≠ 408 →
      attempt 0 = Except.error e →
      Api.retryRequest attempt = (Except.error e, [])) ∧
    ((Api.retryRequest attempt).2.length ≤ 3 ∧
      ∀ j (hj : j < (Api.retryRequest attempt).2.length),
        (Api.retryRequest attempt).2.get ⟨j, hj⟩
          = min (1000 * 2 ^ (j + 1)) 10000) := by
  refine ⟨?_, ?_, ?_, ?_, ?_, ?_⟩
  · cases hr : e.response with
    | none => simp [Api.shouldRetry, hr]
    | some s =>
      simp only [Api.shouldRetry, hr, Bool.or_eq_true, decide_eq_true_eq,
        beq_iff_eq, Option.some.injEq, or_assoc]
      constructor
      · intro h
        exact Or.inr ⟨s, rfl, h⟩
      · rintro (hn | ⟨s1, hs1, h⟩)
        · exact Option.noConfusion hn
        · cases hs1
          exact h
  · intro hr
    simp [ErrorH.shouldRetry, hr]
  · intro s hs hs0
    have hb : (s != 0) = true := by simpa using hs0
    rw [Bool.eq_iff_iff]
    simp only [ErrorH.shouldRetry, Api.shouldRetry, hs, hb]
    split_ifs with h1
    · simp only [Bool.and_eq_true, decide_eq_true_eq, bne_iff_ne,
        and_assoc] at h1
      simp only [Bool.false_eq_true, false_iff, Bool.or_eq_true,
        decide_eq_true_eq, beq_iff_eq, or_assoc]
      push_neg
      obtain ⟨hz, h400, h500, hne429, hne408⟩ := h1
      exact ⟨by omega, hne429, hne408⟩
    · exact Iff.rfl
  · intro s hs h4a h4b h429 h408 hA0
    have hsr : Api.shouldRetry e = false := by
      have h5 : ¬(500 ≤ s) := by omega
      simp [Api.shouldRetry, hs, h5, h429, h408]
    unfold Api.retryRequest
    rw [Api.retryRequestFrom.eq_def, hA0]
    dsimp only
    rw [dif_neg (fun hc => by rw [hsr] at hc; exact Bool.noConfusion hc.2)]
  · have h := retryRequestFrom_length_le attempt Api.maxRetries 0 0
      (by omega)
    simpa [Api.retryRequest, Api.maxRetries] using h
  · intro j hj
    have h := retryRequestFrom_get attempt Api.maxRetries 0 0 (by omega) j hj
    simpa [Api.retryRequest, Api.retryDelay] using h

/-- C4, witness: a request failing with HTTP 404 is not retried — the
error is propagated at once with no backoff sleeps — and
`ErrorHandler.shouldRetry` agrees with the `ApiService` predicate there. -/
theorem claim4_witness :
    exAttempt404 0 = Except.error ⟨some 404, none⟩ ∧
    Api.retryRequest exAttempt404 = (Except.error ⟨some 404, none⟩, []) ∧
    ErrorH.shouldRetry ⟨some 404, none⟩ = Api.shouldRetry ⟨some 404, none⟩ :=
  have h := claim4_retry_policy ⟨some 404, none⟩ exAttempt404
  ⟨rfl,
   h.2.2.2.1 404 rfl (by decide) (by decide) (by decide) (by decide) rfl,
   h.2.2.1 404 rfl (by decide)⟩

/-! ## Claim C5 -/

/-- C5: `retryRequest` terminates on every input (it is a total
function); starting from `retryCount = 0` it sleeps at most
`maxRetries = 3` backoff delays, i.e. performs at most 3 retries after
the initial attempt, so the wrapped request function is invoked at most
4 times (the number of retries plus one); and when every attempt fails
the returned outcome is the error of the last attempt made (the attempt
whose index equals the number of retries). -/
theorem claim5_retry_terminates {α : Type}
    (attempt : Nat → Except Api.AxiosError α)
    (hfail : ∀ n, ∃ e, attempt n = Except.error e) :
    (Api.retryRequest attempt).2.length ≤ Api.maxRetries ∧
    (Api.retryRequest attempt).2.length + 1 ≤ 4 ∧
    (Api.retryRequest attempt).1
      = attempt ((Api.retryRequest attempt).2.length) := by
  have hlen := retryRequestFrom_length_le attempt Api.maxRetries 0 0 (by omega)
  have hlast := retryRequestFrom_allFail attempt hfail Api.maxRetries 0 0
    (by omega)
  refine ⟨by simpa [Api.retryRequest] using hlen, ?_, ?_⟩
  · have : (Api.retryRequest attempt).2.length ≤ 3 := by
      simpa [Api.retryRequest, Api.maxRetries] using hlen
    omega
  · simpa [Api.retryRequest] using hlast

/-- C5, witness: the termination theorem applied to a request failing
every time with HTTP 500: three retries happen and the final error is
that of the fourth (last) attempt. -/
theorem claim5_witness :
    (∃ e, exAttempt500 0 = Except.error e) ∧
    (Api.retryRequest exAttempt500).2.length ≤ Api.maxRetries ∧
    (Api.retryRequest exAttempt500).1
      = exAttempt500 ((Api.retryRequest exAttempt500).2.length) :=
  have h := claim5_retry_terminates exAttempt500
    (fun n => ⟨⟨some 500, none⟩, rfl⟩)
  ⟨⟨⟨some 500, none⟩, rfl⟩, h.1, h.2.2⟩

/-! ## Claim C6 -/

/-- C6, counterexample: with a token stored under `accessToken`, the
request interceptor of `ApiService` in `src/services/api.ts` returns the
outgoing configuration unchanged — it carries no `Authorization` header
at all, contradicting the claim that every call issued while a token is
stored carries `Bearer <token>`. -/
theorem claim6_counterexample :
    mapGet [("accessToken", "tok")] "accessToken" = some "tok" ∧
    Api.requestInterceptor ⟨[("Content-Type", "application/json")]⟩
      = ⟨[("Content-Type", "application/json")]⟩ ∧
    mapGet (Api.requestInterceptor
        ⟨[("Content-Type", "application/json")]⟩).headers "Authorization"
      = none :=
  ⟨rfl, rfl, rfl⟩

/-- C6 (amended): the request interceptor of the `ApiService` variant
embedded in `enhancedApi.ts` sets the `Authorization` header to
`Bearer <token>` whenever a truthy (nonempty) token is stored under
`accessToken`, and returns the configuration unchanged (adding no
`Authorization` header) when no token is stored or the stored token is
the empty string (`if (token)` is false); the request interceptor of the
primary `ApiService` in `api.ts` returns every configuration unchanged,
so its calls carry no `Authorization` header regardless of the stored
token. -/
theorem claim6_bearer (storage : List (String × String))
    (config : Api.RequestConfig) (token : String) :
    (mapGet storage "accessToken" = some token → token ≠ "" →
      mapGet (Api.requestInterceptorVariant storage config).headers
          "Authorization" = some ("Bearer " ++ token)) ∧
    (mapGet storage "accessToken" = none →
      Api.requestInterceptorVariant storage config = config) ∧
    (mapGet storage "accessToken" = some "" →
      Api.requestInterceptorVariant storage config = config) ∧
    Api.requestInterceptor config = config := by
  refine ⟨?_, ?_, ?_, rfl⟩
  · intro h hne
    unfold Api.requestInterceptorVariant
    rw [h]
    dsimp only
    rw [if_pos (by simpa using hne)]
    exact mapGet_mapSet_self _ _ _
  · intro h
    unfold Api.requestInterceptorVariant
    rw [h]
  · intro h
    unfold Api.requestInterceptorVariant
    rw [h]
    dsimp only
    rw [if_neg (by simp)]

/-- C6, witness: the amended theorem applied to a concrete storage
holding the nonempty token `"tok"` and an empty configuration, and to a
storage holding the empty-string token (no header is added). -/
theorem claim6_witness :
    mapGet [("accessToken", "tok")] "accessToken" = some "tok" ∧
    mapGet (Api.requestInterceptorVariant [("accessToken", "tok")]
        ⟨[]⟩).headers "Authorization" = some ("Bearer " ++ "tok") ∧
    Api.requestInterceptorVariant [("accessToken", "")] ⟨[]⟩ = ⟨[]⟩ :=
  ⟨rfl,
   (claim6_bearer [("accessToken", "tok")] ⟨[]⟩ "tok").1 rfl (by decide),
   (claim6_bearer [("accessToken", "")] ⟨[]⟩ "tok").2.2.1 rfl⟩

/-! ## Claim C7 -/

/-- C7: after a run of `cleanupCache` (on a cache whose keys are
distinct, as JS `Map` keys are), an entry is present under `k` if and
only if it was present before the run and its age is strictly less than
its ttl: every remaining entry is fresh and no fresh entry is removed;
`pendingRequests` is untouched by the sweep. -/
theorem claim7_cleanup {α : Type} (now : Int) (st : EnhancedApi.ApiState α)
    (k : String) (e : EnhancedApi.CacheEntry α)
    (hnd : (st.cache.map Prod.fst).Nodup) :
    (mapGet (EnhancedApi.cleanupCache now st).cache k = some e ↔
      mapGet st.cache k = some e ∧ now - e.timestamp < e.ttl) ∧
    (EnhancedApi.cleanupCache now st).pending = st.pending := by
  refine ⟨?_, rfl⟩
  unfold EnhancedApi.cleanupCache
  dsimp only
  rw [mapGet_filter_val st.cache (fun entry => EnhancedApi.isValidCache now entry)
    k hnd]
  cases hm : mapGet st.cache k with
  | none => simp
  | some v =>
    dsimp only [Option.bind]
    by_cases hval : EnhancedApi.isValidCache now v = true
    · rw [if_pos hval]
      constructor
      · intro h
        cases h
        exact ⟨rfl, by simpa [EnhancedApi.isValidCache] using hval⟩
      · rintro ⟨h1, h2⟩
        cases h1
        rfl
    · rw [if_neg hval]
      constructor
      · intro h
        exact Option.noConfusion h
      · rintro ⟨h1, h2⟩
        cases h1
        exact absurd (by simpa [EnhancedApi.isValidCache] using h2) hval

/-- C7, witness: the sweep theorem applied at time 10 to `exMixed`,
whose entry `"a"` (ttl 100) is fresh and whose entry `"b"` (ttl 5) has
expired. -/
theorem claim7_witness :
    (exMixed.cache.map Prod.fst).Nodup ∧
    (mapGet (EnhancedApi.cleanupCache 10 exMixed).cache "a" = some ⟨1, 0, 100⟩ ↔
      mapGet exMixed.cache "a" = some ⟨1, 0, 100⟩ ∧ (10 : Int) - 0 < 100) ∧
    (EnhancedApi.cleanupCache 10 exMixed).pending = exMixed.pending :=
  have h := claim7_cleanup 10 exMixed "a" ⟨1, 0, 100⟩ (by decide)
  ⟨by decide, h.1, h.2⟩

/-! ## Claim C8 -/

/-- C8, counterexample: the cache key `"enqueue"` does not begin with
`"queue"`, yet `invalidateCache(['queue', 'queue/waiting'])` removes it
(substring match), so the sweep does not remove "every key beginning
with 'queue' and nothing else" on every cache state. -/
theorem claim8_counterexample :
    (EnhancedApi.invalidateCache exEnqueue ["queue", "queue/waiting"]).cache
      = [] ∧
    "queue".toList.isPrefixOf "enqueue".toList = false :=
  ⟨rfl, by decide⟩

/-- C8 (amended): `invalidateCache(patterns)` deletes exactly those
cache entries whose key contains at least one element of `patterns` as a
substring, and leaves every other cache entry and all `pendingRequests`
entries unchanged; in particular `invalidateCache(['queue',
'queue/waiting'])` removes exactly the keys containing `"queue"` as a
substring — among them every key beginning with `"queue"`, including the
parameterized keys produced by `getCacheKey` — and nothing else. -/
theorem claim8_invalidate {α : Type} (st : EnhancedApi.ApiState α)
    (patterns : List String) (k : String) :
    (mapGet (EnhancedApi.invalidateCache st patterns).cache k
      = if patterns.any (fun pattern => strIncludes k pattern) then none
        else mapGet st.cache k) ∧
    (EnhancedApi.invalidateCache st patterns).pending = st.pending ∧
    (mapGet (EnhancedApi.invalidateCache st ["queue", "queue/waiting"]).cache k
      = if strIncludes k "queue" then none else mapGet st.cache k) ∧
    ("queue".toList.isPrefixOf k.toList = true →
      mapGet (EnhancedApi.invalidateCache st
          ["queue", "queue/waiting"]).cache k = none) := by
  have hqueue : ∀ h : strIncludes k "queue" = true,
      (["queue", "queue/waiting"].any (fun pattern => strIncludes k pattern))
        = true := by
    intro h
    simp [List.any_cons, h]
  refine ⟨mapGet_invalidateCache st patterns k, rfl, ?_, ?_⟩
  · by_cases ha : strIncludes k "queue" = true
    · rw [mapGet_invalidateCache, if_pos (hqueue ha), if_pos ha]
    · have hb : strIncludes k "queue/waiting" = false := by
        rcases Bool.eq_false_or_eq_true (strIncludes k "queue/waiting") with
          h | h
        · exfalso
          apply ha
          rw [strIncludes_iff] at h ⊢
          have hq : "queue".toList <:+: "queue/waiting".toList := by decide
          exact hq.trans h
        · exact h
      have ha2 : strIncludes k "queue" = false := by
        rcases Bool.eq_false_or_eq_true (strIncludes k "queue") with h | h
        · exact absurd h ha
        · exact h
      rw [mapGet_invalidateCache]
      simp [List.any_cons, ha2, hb]
  · intro hpre
    rw [mapGet_invalidateCache,
      if_pos (hqueue (strIncludes_of_isPrefixOf k "queue" hpre))]

/-- C8, witness: the invalidation theorem applied to `exQueueState`: the
key `"queue/waiting"` is removed, the key `"doctors"` survives, and the
pending map (with its `"queue"` key) is untouched. -/
theorem claim8_witness :
    mapGet (EnhancedApi.invalidateCache exQueueState
        ["queue", "queue/waiting"]).cache "queue/waiting" = none ∧
    mapGet (EnhancedApi.invalidateCache exQueueState
        ["queue", "queue/waiting"]).cache "doctors" = some ⟨2, 0, 100⟩ ∧
    (EnhancedApi.invalidateCache exQueueState
        ["queue", "queue/waiting"]).pending = exQueueState.pending := by
  have h1 := claim8_invalidate exQueueState ["queue", "queue/waiting"]
    "queue/waiting"
  have h2 := claim8_invalidate exQueueState ["queue", "queue/waiting"]
    "doctors"
  refine ⟨h1.2.2.2 (by decide), ?_, h1.2.1⟩
  rw [h2.2.2.1]
  decide

/-! ## Claim C9 -/

/-- C9: in `updateQueueStatus(id, status)`, when the status-update
request fails and `status` is `'completed'`, the client falls back to
`completePatientOptimistic`; on fallback success its result is returned,
on fallback failure the original status-update error (not the
fallback's) is rethrown; for any status other than `'completed'` the
original error is rethrown with no fallback. -/
theorem claim9_queue_fallback {α β : Type} (st : EnhancedApi.ApiState α)
    (id : Int) (status : QueueStatus) (e e2 : Nat) (q : β)
    (nf : NetResult β) :
    (EnhancedApi.updateQueueStatus st id QueueStatus.completed
        (NetResult.err e : NetResult β) (NetResult.ok q)).1 = NetResult.ok q ∧
    (EnhancedApi.updateQueueStatus st id QueueStatus.completed
        (NetResult.err e : NetResult β) (NetResult.err e2)).1
      = NetResult.err e ∧
    (status ≠ QueueStatus.completed →
      (EnhancedApi.updateQueueStatus st id status (NetResult.err e) nf).1
        = NetResult.err e) := by
  refine ⟨rfl, rfl, ?_⟩
  intro h
  have hb : (status == QueueStatus.completed) = false := by
    simpa using h
  unfold EnhancedApi.updateQueueStatus
  dsimp only
  simp [hb]

/-- C9, witness: the fallback theorem at concrete inputs — fallback
success returns the fallback's value, fallback failure rethrows the
original error, and a non-`completed` status rethrows the original
error. -/
theorem claim9_witness :
    (EnhancedApi.updateQueueStatus exPending 1 QueueStatus.completed
        (NetResult.err 7) (NetResult.ok (5 : Nat))).1 = NetResult.ok 5 ∧
    (EnhancedApi.updateQueueStatus exPending 1 QueueStatus.completed
        (NetResult.err 7) (NetResult.err 8 : NetResult Nat)).1
      = NetResult.err 7 ∧
    (EnhancedApi.updateQueueStatus exPending 1 QueueStatus.waiting
        (NetResult.err 7) (NetResult.ok (5 : Nat))).1 = NetResult.err 7 :=
  have h := claim9_queue_fallback exPending 1 QueueStatus.waiting 7 8 (5 : Nat)
    (NetResult.ok 5)
  ⟨h.1, h.2.1, h.2.2 (by decide)⟩

/-! ## Claim C10 -/

theorem isEmptyValue_eq_spec (value : Validation.JSValue) :
    Validation.isEmptyValue value = Validation.specEmptyValue value := by
  cases value <;> rfl

theorem specBoundActive_eq_numTruthy (o : Option Nat) :
    Validation.specBoundActive o = Validation.numTruthy o := by
  cases o with
  | none => rfl
  | some n =>
    cases n with
    | zero => rfl
    | succ m =>
      simp [Validation.specBoundActive, Validation.numTruthy]

theorem stringChecks_then_custom (s : String)
    (rules : Validation.ValidationRule) :
    (match Validation.stringChecks s rules with
     | some msg => some msg
     | none =>
       match rules.customValidator with
       | some f => f (Validation.JSValue.strV s)
       | none => none)
      = Validation.specFieldCheck s rules := by
  unfold Validation.stringChecks Validation.specFieldCheck
  rw [specBoundActive_eq_numTruthy rules.minLength,
    specBoundActive_eq_numTruthy rules.maxLength]
  by_cases h1 : (Validation.numTruthy rules.minLength &&
      decide (s.length < rules.minLength.getD 0)) = true
  · rw [if_pos h1, if_pos h1]
  · rw [if_neg h1, if_neg h1]
    by_cases h2 : (Validation.numTruthy rules.maxLength &&
        decide (rules.maxLength.getD 0 < s.length)) = true
    · rw [if_pos h2, if_pos h2]
    · rw [if_neg h2, if_neg h2]
      cases hp : rules.pattern with
      | some p =>
        by_cases h3 : (!p s) = true
        · simp [h3]
        · have hf : (!p s) = false := by
            simpa using h3
          simp [hf]
      | none => rfl

/-- C10, counterexample: with `maxLength: 0` (a set rule) and the
non-empty string `"ab"` (length above the bound), `validateField`
returns `null` instead of the maxLength message: the `rules.maxLength &&`
guard treats the bound `0` as unset (JS falsiness), so the check is
skipped rather than applied. -/
theorem claim10_counterexample :
    Validation.validateField (Validation.JSValue.strV "ab") exRulesMax0
      = none ∧
    exRulesMax0.maxLength = some 0 ∧
    (0 : Nat) < "ab".length :=
  ⟨by decide, rfl, by decide⟩

/-- C10 (amended): for every empty value — `null`, `undefined`, any
falsy value, or a string of only whitespace — `validateField` returns
`'Required field'` when `rules.required` is set and `null` otherwise,
independently of the other rule fields (none is evaluated); for a
non-empty string the checks are applied in the fixed order `minLength`,
`maxLength`, `pattern`, `customValidator` and the message of the first
violated rule is returned, except that a length bound equal to `0` is
treated as unset (JS falsiness) rather than applied. -/
theorem claim10_validateField (value : Validation.JSValue)
    (rules : Validation.ValidationRule) (s : String) :
    (Validation.specEmptyValue value = true →
      Validation.validateField value rules
        = if rules.required then some "Required field" else none) ∧
    (Validation.specEmptyValue (Validation.JSValue.strV s) = false →
      Validation.validateField (Validation.JSValue.strV s) rules
        = Validation.specFieldCheck s rules) := by
  constructor
  · intro h
    rw [← isEmptyValue_eq_spec] at h
    unfold Validation.validateField
    rw [h]
    cases hr : rules.required <;> simp
  · intro h
    rw [← isEmptyValue_eq_spec] at h
    unfold Validation.validateField
    rw [h]
    simp only [Bool.and_false, Bool.false_eq_true, if_false]
    exact stringChecks_then_custom s rules

/-- C10, witness: a whitespace-only string is rejected as required, and
on the non-empty string `"ab"` `validateField` agrees with the amended
ordered-checks description under the rules `exRulesMax0`. -/
theorem claim10_witness :
    Validation.specEmptyValue (Validation.JSValue.strV "  ") = true ∧
    Validation.validateField (Validation.JSValue.strV "  ")
        { required := true, minLength := none, maxLength := none,
          pattern := none, customValidator := none }
      = some "Required field" ∧
    Validation.specEmptyValue (Validation.JSValue.strV "ab") = false ∧
    Validation.validateField (Validation.JSValue.strV "ab") exRulesMax0
      = Validation.specFieldCheck "ab" exRulesMax0 := by
  refine ⟨by decide, ?_, by decide, ?_⟩
  · have h := (claim10_validateField (Validation.JSValue.strV "  ")
      { required := true, minLength := none, maxLength := none,
        pattern := none, customValidator := none } "  ").1 (by decide)
    simpa using h
  · exact (claim10_validateField (Validation.JSValue.strV "ab") exRulesMax0
      "ab").2 (by decide)

end FrontDesk
